import Mathlib

/-!
Verification of the determinant-ratio overlap engine
(`src/pyci/fanci/detratio.py`, class `DetRatio`).

The Python code is shallowly embedded below: numpy arrays become lists,
floating-point numbers become elements of an arbitrary field `K`
(instantiated at `ℚ` for concrete evaluation and at `ℝ` where calculus is
involved), fallible operations (index errors, reshape errors, invalid
selector strings) return `Except String`.
-/

namespace PyCI

/-- Run a fallible function over a list, stopping at the first error
(embedding of a Python list comprehension / loop that may raise). -/
def mapE {α β : Type} (f : α → Except String β) : List α → Except String (List β)
  | [] => .ok []
  | a :: l =>
    match f a with
    | .error s => .error s
    | .ok b =>
      match mapE f l with
      | .error s => .error s
      | .ok bs => .ok (b :: bs)

/-- Fallible left fold (embedding of a Python loop mutating a buffer,
where a loop body may raise). -/
def foldE {σ α : Type} (f : σ → α → Except String σ) : σ → List α → Except String σ
  | s, [] => .ok s
  | s, a :: l =>
    match f s a with
    | .error e => .error e
    | .ok s' => foldE f s' l

/-- Python `l[i]` on a list: raises `IndexError` when out of bounds. -/
def getIdx {α : Type} (l : List α) (i : ℕ) : Except String α :=
  if h : i < l.length then .ok (l.get ⟨i, h⟩) else .error "index out of bounds"

/-- Python `l[i] = v` on a list/array row: raises `IndexError` when out of
bounds, otherwise returns the updated buffer. -/
def setIdx {α : Type} (l : List α) (i : ℕ) (v : α) : Except String (List α) :=
  if i < l.length then .ok (l.set i v) else .error "index out of bounds"

/-- numpy fancy indexing `arr[idxs]`: select entries at the given indices,
raising when an index is out of bounds. -/
def selectIdx {α : Type} (l : List α) (idxs : List ℕ) : Except String (List α) :=
  mapE (fun i => getIdx l i) idxs

/-- Determinant of a square matrix given as a list of rows, by Laplace
expansion along the first row (embedding of `np.linalg.det`; the empty
matrix has determinant 1, as numpy returns for a `(0, 0)` array). -/
def detL {K : Type} [Field K] : List (List K) → K
  | [] => 1
  | r :: rs =>
    ((List.range r.length).map
      (fun j => (-1 : K) ^ j * r.getD j 0 * detL (rs.map (fun row => row.eraseIdx j)))).sum
termination_by l => l.length
decreasing_by simp only [List.length_map, List.length_cons]; omega

/-- The engine state saved by `DetRatio.__init__` that the two compute
methods read: basis size, occupation number, matrix counts, the projection
size and the full configuration space (one sorted occupied-index list per
configuration).  `nocc` plays the role of `self._wfn.nocc_up`. -/
structure DetRatio : Type where
  nbasis : ℕ
  nocc : ℕ
  numerator : ℕ
  denominator : ℕ
  nproj : ℕ
  sspace : List (List ℕ)

/-- `self._nmatrices = numerator + denominator`. -/
def DetRatio.nmatrices (e : DetRatio) : ℕ := e.numerator + e.denominator

/-- `nparam = nmatrices * ham.nbasis * nocc + 1` (line 88 of the source). -/
def DetRatio.nparam (e : DetRatio) : ℕ := e.nmatrices * e.nbasis * e.nocc + 1

/-- The "P" space is the prefix of the "S" space of length `nproj`. -/
def DetRatio.pspace (e : DetRatio) : List (List ℕ) := e.sspace.take e.nproj

/-- `DetRatio.__init__`: the odd-matrix-count check, the parameter count
and the default `nproj` (host-type checks on `ham`/`wfn` are outside the
embedded core; the configuration space is passed in). -/
def DetRatio.init (nbasis nocc numerator denominator : ℕ) (nproj : Option ℕ)
    (sspace : List (List ℕ)) : Except String DetRatio :=
  let nmatrices := numerator + denominator
  if nmatrices % 2 = 1 then
    .error "Number of matrices cannot be odd"
  else
    let nparam := nmatrices * nbasis * nocc + 1
    let np := nproj.getD nparam
    .ok ⟨nbasis, nocc, numerator, denominator, np, sspace⟩

/-- The `(n1, n2, n3)`-reshape of a flat vector, as a nested list
(row-major, as numpy reshapes). -/
def reshapeTotal {K : Type} [Field K] (x : List K) (n1 n2 n3 : ℕ) :
    List (List (List K)) :=
  (List.range n1).map (fun a =>
    (List.range n2).map (fun b =>
      (List.range n3).map (fun c => x.getD ((a * n2 + b) * n3 + c) 0)))

/-- `x.reshape(n1, n2, n3)`: fails unless the sizes match exactly. -/
def reshape3 {K : Type} [Field K] (x : List K) (n1 n2 n3 : ℕ) :
    Except String (List (List (List K))) :=
  if x.length = n1 * n2 * n3 then .ok (reshapeTotal x n1 n2 n3)
  else .error "cannot reshape"

/-- The `occs_array` argument of the two compute methods: an explicit
array of configurations, or a selector string. -/
inductive OccsArg : Type where
  | arr (a : List (List ℕ))
  | str (s : String)

/-- The selector dispatch at the top of `compute_overlap` and
`compute_overlap_deriv` (lines 135-142 and 178-185): an array passes
through, `"P"`/`"S"` select the stored spaces, anything else raises. -/
def DetRatio.resolveOccs (e : DetRatio) : OccsArg → Except String (List (List ℕ))
  | .arr a => .ok a
  | .str s =>
    if s = "P" then .ok e.pspace
    else if s = "S" then .ok e.sspace
    else .error "invalid occs_array argument"

/-- `np.linalg.det(mat[occs])`: restrict a matrix to the rows at the
occupied indices and take the determinant. -/
def detRows {K : Type} [Field K] (mat : List (List K)) (occs : List ℕ) :
    Except String K :=
  match selectIdx mat occs with
  | .error s => .error s
  | .ok sub => .ok (detL sub)

/-- `DetRatio.compute_overlap` (lines 116-155): reshape the parameters into
`nmatrices` matrices of shape `(nbasis, nocc)`, split into numerator and
denominator sets, and return per configuration the ratio of determinant
products over the occupied rows. -/
def DetRatio.compute_overlap {K : Type} [Field K] (e : DetRatio) (x : List K)
    (occs_array : OccsArg) : Except String (List K) :=
  match e.resolveOccs occs_array with
  | .error s => .error s
  | .ok occsA =>
    match reshape3 x e.nmatrices e.nbasis e.nocc with
    | .error s => .error s
    | .ok x_mats =>
      let n_mats := x_mats.take e.numerator
      let d_mats := x_mats.drop e.numerator
      mapE (fun occs =>
        match mapE (fun mat => detRows mat occs) n_mats with
        | .error s => .error s
        | .ok ndets =>
          match mapE (fun mat => detRows mat occs) d_mats with
          | .error s => .error s
          | .ok ddets => .ok (ndets.prod / ddets.prod)) occsA

/-- Body of the first (numerator) derivative loop of
`compute_overlap_deriv` (lines 207-223), updating `y_row` at parameter
index `i`. -/
def DetRatio.numerStep {K : Type} [Field K] (e : DetRatio)
    (x_mats : List (List (List K))) (occs : List ℕ) (dets : List K)
    (n_det_prod d_det_prod : K) (y_row : List K) (i : ℕ) :
    Except String (List K) :=
  let mat_size := e.nbasis * e.nocc
  let m := i / mat_size
  let n := i % mat_size
  let r := n / e.nocc
  let c := n % e.nocc
  let rows := occs.filter (fun a => a ≠ r)
  let cols := (List.range e.nocc).filter (fun a => a ≠ c)
  if rows.length = 0 ∧ cols.length = 0 then
    setIdx y_row i 1
  else if rows.length ≠ occs.length ∧ cols.length ≠ e.nocc then
    match getIdx x_mats m with
    | .error s => .error s
    | .ok matm =>
      match selectIdx matm rows with
      | .error s => .error s
      | .ok subrows =>
        match mapE (fun row => selectIdx row cols) subrows with
        | .error s => .error s
        | .ok sub =>
          match getIdx dets m with
          | .error s => .error s
          | .ok detm =>
            let sign1 : K := if occs.countP (fun a => decide (a < r)) % 2 = 1 then -1 else 1
            let sign2 : K :=
              if ((List.range e.nocc).countP (fun a => decide (a < c))) % 2 = 1 then -1 else 1
            setIdx y_row i (sign1 * sign2 * (n_det_prod * detL sub) / (d_det_prod * detm))
  else .ok y_row

/-- Body of the second (denominator) derivative loop of
`compute_overlap_deriv` (lines 227-243): identical to `numerStep` except
that the column-parity sign is flipped (line 240 versus line 220). -/
def DetRatio.denomStep {K : Type} [Field K] (e : DetRatio)
    (x_mats : List (List (List K))) (occs : List ℕ) (dets : List K)
    (n_det_prod d_det_prod : K) (y_row : List K) (i : ℕ) :
    Except String (List K) :=
  let mat_size := e.nbasis * e.nocc
  let m := i / mat_size
  let n := i % mat_size
  let r := n / e.nocc
  let c := n % e.nocc
  let rows := occs.filter (fun a => a ≠ r)
  let cols := (List.range e.nocc).filter (fun a => a ≠ c)
  if rows.length = 0 ∧ cols.length = 0 then
    setIdx y_row i 1
  else if rows.length ≠ occs.length ∧ cols.length ≠ e.nocc then
    match getIdx x_mats m with
    | .error s => .error s
    | .ok matm =>
      match selectIdx matm rows with
      | .error s => .error s
      | .ok subrows =>
        match mapE (fun row => selectIdx row cols) subrows with
        | .error s => .error s
        | .ok sub =>
          match getIdx dets m with
          | .error s => .error s
          | .ok detm =>
            let sign1 : K := if occs.countP (fun a => decide (a < r)) % 2 = 1 then -1 else 1
            let sign2 : K :=
              if ((List.range e.nocc).countP (fun a => decide (a < c))) % 2 = 1 then 1 else -1
            setIdx y_row i (sign1 * sign2 * (n_det_prod * detL sub) / (d_det_prod * detm))
  else .ok y_row

/-- One iteration of the outer `for y_row, occs in zip(y, occs_array)` loop
of `compute_overlap_deriv` (lines 196-243): compute the matrix determinants
over the occupied rows, then run the numerator loop over
`range(numerator * mat_size)` and the denominator loop over
`range(j, j + numerator * mat_size)` where `j = i + 1` for the last value
of `i` (the Python `i` is initialized to `0`, so `j = 1` when the first
loop is empty; note the source reuses `self._numerator` for the length of
the second loop). -/
def DetRatio.derivRow {K : Type} [Field K] (e : DetRatio)
    (x_mats : List (List (List K))) (occs : List ℕ) (y_row0 : List K) :
    Except String (List K) :=
  match mapE (fun mat => detRows mat occs) x_mats with
  | .error s => .error s
  | .ok dets =>
    let n_det_prod := (dets.take e.numerator).prod
    let d_det_prod := (dets.drop e.numerator).prod
    let mat_size := e.nbasis * e.nocc
    match foldE (fun acc i => e.numerStep x_mats occs dets n_det_prod d_det_prod acc i)
        y_row0 (List.range (e.numerator * mat_size)) with
    | .error s => .error s
    | .ok y1 =>
      let iFinal := if e.numerator * mat_size = 0 then 0 else e.numerator * mat_size - 1
      let j := iFinal + 1
      foldE (fun acc i => e.denomStep x_mats occs dets n_det_prod d_det_prod acc i)
        y1 (List.range' j (e.numerator * mat_size))

/-- `DetRatio.compute_overlap_deriv` (lines 157-246): zero-initialize an
`M × (nparam - 1)` buffer and fill each row with `derivRow`. -/
def DetRatio.compute_overlap_deriv {K : Type} [Field K] (e : DetRatio) (x : List K)
    (occs_array : OccsArg) : Except String (List (List K)) :=
  match e.resolveOccs occs_array with
  | .error s => .error s
  | .ok occsA =>
    match reshape3 x e.nmatrices e.nbasis e.nocc with
    | .error s => .error s
    | .ok x_mats =>
      mapE (fun occs => e.derivRow x_mats occs (List.replicate (e.nparam - 1) 0)) occsA

/-- Modelled from the spec: "one real number per configuration = (product
of determinants of numerator matrices restricted to occupied rows) /
(product of determinants of denominator matrices restricted to occupied
rows)" — the specification-side overlap value, written independently of
the loop structure of the code. -/
def specOverlapValue {K : Type} [Field K] (n_mats d_mats : List (List (List K)))
    (occs : List ℕ) : K :=
  ((n_mats.map (fun mat => detL (occs.map (fun r => mat.getD r [])))).prod) /
  ((d_mats.map (fun mat => detL (occs.map (fun r => mat.getD r [])))).prod)

/-- Modelled from the spec: "the standard cofactor sign from deleting that
row and column", the product of the two parities `(-1)^(position of r)`
and `(-1)^(position of c)`. -/
def cofactorSign {K : Type} [Field K] (pr pc : ℕ) : K := (-1) ^ pr * (-1) ^ pc

/-- The minor submatrix `x_mats[m][rows, :][:, cols]` built by the
derivative loops: delete row `r` from the occupied rows and column `c`
from the column range. -/
def minorMat {K : Type} [Field K] (mat : List (List K)) (occs : List ℕ)
    (nocc r c : ℕ) : List (List K) :=
  (occs.filter (fun a => a ≠ r)).map (fun a =>
    ((List.range nocc).filter (fun b => b ≠ c)).map (fun b => (mat.getD a []).getD b 0))

section Lemmas

lemma mapE_ok {α β : Type} (f : α → Except String β) (g : α → β) (l : List α)
    (h : ∀ a ∈ l, f a = .ok (g a)) : mapE f l = .ok (l.map g) := by
  induction l with
  | nil => rfl
  | cons a t ih =>
    have ha : f a = .ok (g a) := h a (by simp)
    have ht := ih (fun b hb => h b (by simp [hb]))
    simp [mapE, ha, ht]

lemma getIdx_ok {α : Type} (l : List α) (i : ℕ) (d : α) (h : i < l.length) :
    getIdx l i = .ok (l.getD i d) := by
  simp [getIdx, h, List.getD_eq_getElem, List.get_eq_getElem]

lemma selectIdx_ok {α : Type} (l : List α) (idxs : List ℕ) (d : α)
    (h : ∀ i ∈ idxs, i < l.length) :
    selectIdx l idxs = .ok (idxs.map (fun i => l.getD i d)) :=
  mapE_ok _ _ _ (fun i hi => getIdx_ok l i d (h i hi))

lemma detRows_ok {K : Type} [Field K] (mat : List (List K)) (occs : List ℕ)
    (h : ∀ r ∈ occs, r < mat.length) :
    detRows mat occs = .ok (detL (occs.map (fun r => mat.getD r []))) := by
  simp [detRows, selectIdx_ok mat occs [] h]

lemma getD_mem {α : Type} (l : List α) (i : ℕ) (d : α) (h : i < l.length) :
    l.getD i d ∈ l := by
  rw [List.getD_eq_getElem l d h]
  exact List.getElem_mem h

lemma ite_neg_one_pow {K : Type} [Field K] (k : ℕ) :
    (if k % 2 = 1 then (-1 : K) else 1) = (-1) ^ k := by
  rcases Nat.even_or_odd k with he | ho
  · rw [if_neg (by simp [Nat.even_iff.mp he]), he.neg_one_pow]
  · rw [if_pos (Nat.odd_iff.mp ho), ho.neg_one_pow]

lemma ite_neg_one_pow_flipped {K : Type} [Field K] (k : ℕ) :
    (if k % 2 = 1 then (1 : K) else -1) = -(-1) ^ k := by
  rcases Nat.even_or_odd k with he | ho
  · rw [if_neg (by simp [Nat.even_iff.mp he]), he.neg_one_pow]
  · rw [if_pos (Nat.odd_iff.mp ho), ho.neg_one_pow]; ring

lemma countP_lt_eq_indexOf (l : List ℕ) (r : ℕ) (hs : l.Sorted (· < ·)) (hr : r ∈ l) :
    l.countP (fun a => decide (a < r)) = l.indexOf r := by
  induction l with
  | nil => cases hr
  | cons a t ih =>
    rw [List.sorted_cons] at hs
    by_cases har : a = r
    · subst har
      rw [List.indexOf_cons_self, List.countP_cons]
      have h0 : t.countP (fun b => decide (b < a)) = 0 :=
        List.countP_eq_zero.mpr (fun b hb => by simpa using (hs.1 b hb).not_lt)
      simp [h0]
    · have hrt : r ∈ t := by
        rcases List.mem_cons.mp hr with h | h
        · exact absurd h.symm har
        · exact h
      rw [List.countP_cons, List.indexOf_cons_ne _ har, ih hs.2 hrt]
      have : a < r := hs.1 r hrt
      simp [this, Nat.succ_eq_add_one]

lemma countP_range_lt (n c : ℕ) (h : c ≤ n) :
    (List.range n).countP (fun a => decide (a < c)) = c := by
  induction n with
  | zero => interval_cases c; rfl
  | succ n ih =>
    rw [List.range_succ, List.countP_append]
    by_cases hc : c ≤ n
    · rw [ih hc]
      simp [List.countP_cons, Nat.not_lt.mpr hc]
    · have hcn : c = n + 1 := by omega
      subst hcn
      have hall : (List.range n).countP (fun a => decide (a < n + 1)) = n := by
        rw [List.countP_eq_length.mpr
          (fun a ha => by simpa using Nat.lt_succ_of_lt (List.mem_range.mp ha))]
        simp
      rw [hall]
      simp [List.countP_cons]

lemma length_filter_ne (l : List ℕ) (r : ℕ) (hd : l.Nodup) (hr : r ∈ l) :
    (l.filter (fun a => a ≠ r)).length = l.length - 1 := by
  induction l with
  | nil => cases hr
  | cons a t ih =>
    rw [List.nodup_cons] at hd
    by_cases har : a = r
    · subst har
      have htt : t.filter (fun b => b ≠ a) = t := by
        apply List.filter_eq_self.mpr
        intro b hb
        simp only [decide_eq_true_eq]
        intro hba
        subst hba
        exact hd.1 hb
      have hstep : (a :: t).filter (fun b => b ≠ a) = t.filter (fun b => b ≠ a) := by
        simp [List.filter_cons]
      rw [hstep, htt]
      simp
    · have hrt : r ∈ t := by
        rcases List.mem_cons.mp hr with h | h
        · exact absurd h.symm har
        · exact h
      have ht := ih hd.2 hrt
      have hlen : 0 < t.length := List.length_pos.mpr (by rintro rfl; cases hrt)
      have hstep : (a :: t).filter (fun b => b ≠ r) = a :: t.filter (fun b => b ≠ r) := by
        simp [List.filter_cons, har]
      rw [hstep, List.length_cons, ht, List.length_cons]
      omega

lemma reshapeTotal_length {K : Type} [Field K] (x : List K) (n1 n2 n3 : ℕ) :
    (reshapeTotal x n1 n2 n3).length = n1 := by
  simp [reshapeTotal]

lemma reshapeTotal_mat_length {K : Type} [Field K] {x : List K} {n1 n2 n3 : ℕ}
    {mat : List (List K)} (h : mat ∈ reshapeTotal x n1 n2 n3) : mat.length = n2 := by
  simp only [reshapeTotal, List.mem_map] at h
  obtain ⟨a, _, rfl⟩ := h
  simp

lemma reshapeTotal_row_length {K : Type} [Field K] {x : List K} {n1 n2 n3 : ℕ}
    {mat : List (List K)} {row : List K} (h : mat ∈ reshapeTotal x n1 n2 n3)
    (hrow : row ∈ mat) : row.length = n3 := by
  simp only [reshapeTotal, List.mem_map] at h
  obtain ⟨a, _, rfl⟩ := h
  simp only [List.mem_map] at hrow
  obtain ⟨b, _, rfl⟩ := hrow
  simp

lemma compute_overlap_eq_spec {K : Type} [Field K] (e : DetRatio) (x : List K)
    (oa : OccsArg) (A : List (List ℕ))
    (hres : e.resolveOccs oa = .ok A)
    (hx : x.length = e.nmatrices * e.nbasis * e.nocc)
    (hA : ∀ occs ∈ A, ∀ r ∈ occs, r < e.nbasis) :
    e.compute_overlap x oa =
      .ok (A.map (fun occs =>
        specOverlapValue ((reshapeTotal x e.nmatrices e.nbasis e.nocc).take e.numerator)
          ((reshapeTotal x e.nmatrices e.nbasis e.nocc).drop e.numerator) occs)) := by
  have hresh : reshape3 x e.nmatrices e.nbasis e.nocc =
      .ok (reshapeTotal x e.nmatrices e.nbasis e.nocc) := by
    simp [reshape3, hx]
  simp only [DetRatio.compute_overlap, hres, hresh]
  refine mapE_ok _ _ _ (fun occs hocc => ?_)
  have hmlen : ∀ mat ∈ reshapeTotal x e.nmatrices e.nbasis e.nocc, mat.length = e.nbasis :=
    fun mat hmat => reshapeTotal_mat_length hmat
  have h1 : mapE (fun mat => detRows mat occs)
      ((reshapeTotal x e.nmatrices e.nbasis e.nocc).take e.numerator) =
      .ok (((reshapeTotal x e.nmatrices e.nbasis e.nocc).take e.numerator).map
        (fun mat => detL (occs.map (fun r => mat.getD r [])))) :=
    mapE_ok _ _ _ (fun mat hmat => detRows_ok mat occs (fun r hr => by
      rw [hmlen mat (List.take_subset _ _ hmat)]
      exact hA occs hocc r hr))
  have h2 : mapE (fun mat => detRows mat occs)
      ((reshapeTotal x e.nmatrices e.nbasis e.nocc).drop e.numerator) =
      .ok (((reshapeTotal x e.nmatrices e.nbasis e.nocc).drop e.numerator).map
        (fun mat => detL (occs.map (fun r => mat.getD r [])))) :=
    mapE_ok _ _ _ (fun mat hmat => detRows_ok mat occs (fun r hr => by
      rw [hmlen mat (List.drop_subset _ _ hmat)]
      exact hA occs hocc r hr))
  simp [h1, h2, specOverlapValue]

lemma numerStep_eq {K : Type} [Field K] (e : DetRatio) (x_mats : List (List (List K)))
    (occs : List ℕ) (dets : List K) (nP dP : K) (y_row : List K) (i m n r c : ℕ)
    (hm : m = i / (e.nbasis * e.nocc)) (hn : n = i % (e.nbasis * e.nocc))
    (hr : r = n / e.nocc) (hc : c = n % e.nocc)
    (hsorted : occs.Sorted (· < ·)) (hrocc : r ∈ occs)
    (hlen : occs.length = e.nocc) (hnocc : 1 < e.nocc)
    (hi : i < y_row.length) (hmx : m < x_mats.length) (hmd : m < dets.length)
    (hrows : ∀ a ∈ occs, a < (x_mats.getD m []).length)
    (hcols : ∀ row ∈ x_mats.getD m [], e.nocc ≤ row.length) :
    e.numerStep x_mats occs dets nP dP y_row i =
      .ok (y_row.set i (cofactorSign (occs.indexOf r) c *
        (nP * detL (minorMat (x_mats.getD m []) occs e.nocc r c)) /
        (dP * dets.getD m 0))) := by
  have hnocc0 : 0 < e.nocc := by omega
  subst hn
  subst hr
  subst hc
  subst hm
  have hclt : i % (e.nbasis * e.nocc) % e.nocc < e.nocc := Nat.mod_lt _ hnocc0
  have hnodup : occs.Nodup := hsorted.nodup
  have hrl := length_filter_ne occs _ hnodup hrocc
  have hcl := length_filter_ne (List.range e.nocc) _ (List.nodup_range _)
    (List.mem_range.mpr hclt)
  have cond1 : ¬((occs.filter (fun a => a ≠ i % (e.nbasis * e.nocc) / e.nocc)).length = 0 ∧
      ((List.range e.nocc).filter (fun b => b ≠ i % (e.nbasis * e.nocc) % e.nocc)).length = 0) := by
    rw [hrl, hcl, hlen, List.length_range]
    omega
  have cond2 : (occs.filter (fun a => a ≠ i % (e.nbasis * e.nocc) / e.nocc)).length ≠ occs.length ∧
      ((List.range e.nocc).filter (fun b => b ≠ i % (e.nbasis * e.nocc) % e.nocc)).length ≠ e.nocc := by
    rw [hrl, hcl, hlen, List.length_range]
    omega
  have hgx : getIdx x_mats (i / (e.nbasis * e.nocc)) =
      .ok (x_mats.getD (i / (e.nbasis * e.nocc)) []) := getIdx_ok _ _ _ hmx
  have hsel : selectIdx (x_mats.getD (i / (e.nbasis * e.nocc)) [])
      (occs.filter (fun a => a ≠ i % (e.nbasis * e.nocc) / e.nocc)) =
      .ok ((occs.filter (fun a => a ≠ i % (e.nbasis * e.nocc) / e.nocc)).map
        (fun a => (x_mats.getD (i / (e.nbasis * e.nocc)) []).getD a [])) :=
    selectIdx_ok _ _ [] (fun a ha => hrows a (List.mem_of_mem_filter ha))
  have hmap : mapE (fun row => selectIdx row
        ((List.range e.nocc).filter (fun b => b ≠ i % (e.nbasis * e.nocc) % e.nocc)))
      ((occs.filter (fun a => a ≠ i % (e.nbasis * e.nocc) / e.nocc)).map
        (fun a => (x_mats.getD (i / (e.nbasis * e.nocc)) []).getD a [])) =
      .ok (((occs.filter (fun a => a ≠ i % (e.nbasis * e.nocc) / e.nocc)).map
        (fun a => (x_mats.getD (i / (e.nbasis * e.nocc)) []).getD a [])).map
          (fun row => ((List.range e.nocc).filter
            (fun b => b ≠ i % (e.nbasis * e.nocc) % e.nocc)).map (fun b => row.getD b 0))) :=
    mapE_ok _ _ _ (fun row hrow => by
      apply selectIdx_ok
      intro b hb
      have hb' : b < e.nocc := List.mem_range.mp (List.mem_of_mem_filter hb)
      obtain ⟨a, ha, rfl⟩ := List.mem_map.mp hrow
      exact lt_of_lt_of_le hb'
        (hcols _ (getD_mem _ _ _ (hrows a (List.mem_of_mem_filter ha)))))
  have hgd : getIdx dets (i / (e.nbasis * e.nocc)) =
      .ok (dets.getD (i / (e.nbasis * e.nocc)) 0) := getIdx_ok _ _ _ hmd
  simp only [DetRatio.numerStep, hgx, hsel, hmap, hgd, cond1, cond2, setIdx, hi,
    if_true, ite_true, if_false, ite_false]
  simp only [ite_neg_one_pow]
  rw [countP_lt_eq_indexOf occs _ hsorted hrocc, countP_range_lt e.nocc _ (le_of_lt hclt)]
  rw [if_pos cond2]
  simp only [cofactorSign, minorMat, List.map_map, Function.comp_def]

lemma denomStep_eq {K : Type} [Field K] (e : DetRatio) (x_mats : List (List (List K)))
    (occs : List ℕ) (dets : List K) (nP dP : K) (y_row : List K) (i m n r c : ℕ)
    (hm : m = i / (e.nbasis * e.nocc)) (hn : n = i % (e.nbasis * e.nocc))
    (hr : r = n / e.nocc) (hc : c = n % e.nocc)
    (hsorted : occs.Sorted (· < ·)) (hrocc : r ∈ occs)
    (hlen : occs.length = e.nocc) (hnocc : 1 < e.nocc)
    (hi : i < y_row.length) (hmx : m < x_mats.length) (hmd : m < dets.length)
    (hrows : ∀ a ∈ occs, a < (x_mats.getD m []).length)
    (hcols : ∀ row ∈ x_mats.getD m [], e.nocc ≤ row.length) :
    e.denomStep x_mats occs dets nP dP y_row i =
      .ok (y_row.set i (-cofactorSign (occs.indexOf r) c *
        (nP * detL (minorMat (x_mats.getD m []) occs e.nocc r c)) /
        (dP * dets.getD m 0))) := by
  have hnocc0 : 0 < e.nocc := by omega
  subst hn
  subst hr
  subst hc
  subst hm
  have hclt : i % (e.nbasis * e.nocc) % e.nocc < e.nocc := Nat.mod_lt _ hnocc0
  have hnodup : occs.Nodup := hsorted.nodup
  have hrl := length_filter_ne occs _ hnodup hrocc
  have hcl := length_filter_ne (List.range e.nocc) _ (List.nodup_range _)
    (List.mem_range.mpr hclt)
  have cond1 : ¬((occs.filter (fun a => a ≠ i % (e.nbasis * e.nocc) / e.nocc)).length = 0 ∧
      ((List.range e.nocc).filter (fun b => b ≠ i % (e.nbasis * e.nocc) % e.nocc)).length = 0) := by
    rw [hrl, hcl, hlen, List.length_range]
    omega
  have cond2 : (occs.filter (fun a => a ≠ i % (e.nbasis * e.nocc) / e.nocc)).length ≠ occs.length ∧
      ((List.range e.nocc).filter (fun b => b ≠ i % (e.nbasis * e.nocc) % e.nocc)).length ≠ e.nocc := by
    rw [hrl, hcl, hlen, List.length_range]
    omega
  have hgx : getIdx x_mats (i / (e.nbasis * e.nocc)) =
      .ok (x_mats.getD (i / (e.nbasis * e.nocc)) []) := getIdx_ok _ _ _ hmx
  have hsel : selectIdx (x_mats.getD (i / (e.nbasis * e.nocc)) [])
      (occs.filter (fun a => a ≠ i % (e.nbasis * e.nocc) / e.nocc)) =
      .ok ((occs.filter (fun a => a ≠ i % (e.nbasis * e.nocc) / e.nocc)).map
        (fun a => (x_mats.getD (i / (e.nbasis * e.nocc)) []).getD a [])) :=
    selectIdx_ok _ _ [] (fun a ha => hrows a (List.mem_of_mem_filter ha))
  have hmap : mapE (fun row => selectIdx row
        ((List.range e.nocc).filter (fun b => b ≠ i % (e.nbasis * e.nocc) % e.nocc)))
      ((occs.filter (fun a => a ≠ i % (e.nbasis * e.nocc) / e.nocc)).map
        (fun a => (x_mats.getD (i / (e.nbasis * e.nocc)) []).getD a [])) =
      .ok (((occs.filter (fun a => a ≠ i % (e.nbasis * e.nocc) / e.nocc)).map
        (fun a => (x_mats.getD (i / (e.nbasis * e.nocc)) []).getD a [])).map
          (fun row => ((List.range e.nocc).filter
            (fun b => b ≠ i % (e.nbasis * e.nocc) % e.nocc)).map (fun b => row.getD b 0))) :=
    mapE_ok _ _ _ (fun row hrow => by
      apply selectIdx_ok
      intro b hb
      have hb' : b < e.nocc := List.mem_range.mp (List.mem_of_mem_filter hb)
      obtain ⟨a, ha, rfl⟩ := List.mem_map.mp hrow
      exact lt_of_lt_of_le hb'
        (hcols _ (getD_mem _ _ _ (hrows a (List.mem_of_mem_filter ha)))))
  have hgd : getIdx dets (i / (e.nbasis * e.nocc)) =
      .ok (dets.getD (i / (e.nbasis * e.nocc)) 0) := getIdx_ok _ _ _ hmd
  simp only [DetRatio.denomStep, hgx, hsel, hmap, hgd, cond1, cond2, setIdx, hi,
    if_true, ite_true, if_false, ite_false]
  simp only [ite_neg_one_pow, ite_neg_one_pow_flipped]
  rw [countP_lt_eq_indexOf occs _ hsorted hrocc, countP_range_lt e.nocc _ (le_of_lt hclt)]
  rw [if_pos cond2]
  simp only [cofactorSign, minorMat, List.map_map, Function.comp_def]
  exact congrArg (fun v => Except.ok (y_row.set i v)) (by ring)

end Lemmas

section Claims

/-- C1: the claim that every entry of `compute_overlap_deriv` is the exact partial derivative of `compute_overlap` fails on the code.  For the engine with `nbasis = nocc = numerator = denominator = 1`, the overlap as a function of the single numerator parameter `t` (at denominator value 3) is exactly `t / 3`, whose derivative is `1/3` everywhere; yet `compute_overlap_deriv` reports `1.0` for both entries. -/
theorem claim_C1_deriv_not_exact_derivative :
    (∀ t : ℝ, DetRatio.compute_overlap ⟨1, 1, 1, 1, 3, []⟩ [t, 3] (.arr [[0]]) =
      .ok [t / 3]) ∧
    HasDerivAt (fun t : ℝ => t / 3) (1 / 3 : ℝ) 2 ∧
    DetRatio.compute_overlap_deriv ⟨1, 1, 1, 1, 3, []⟩ ([2, 3] : List ℝ) (.arr [[0]]) =
      .ok [[1, 1]] ∧
    (1 : ℝ) ≠ 1 / 3 := by
  refine ⟨fun t => ?_, by simpa using (hasDerivAt_id (2 : ℝ)).div_const 3, ?_, by norm_num⟩
  · norm_num [DetRatio.compute_overlap, DetRatio.resolveOccs, reshape3, reshapeTotal,
      DetRatio.nmatrices, mapE, detRows, selectIdx, getIdx, detL,
      List.range_succ, List.range_zero]
  · norm_num [DetRatio.compute_overlap_deriv, DetRatio.derivRow, DetRatio.numerStep,
      DetRatio.denomStep, DetRatio.resolveOccs, reshape3, reshapeTotal,
      DetRatio.nmatrices, DetRatio.nparam, mapE, foldE, detRows, selectIdx, getIdx, setIdx,
      detL, List.range_succ, List.range_zero, List.range', List.replicate, List.set]

/-- C2: for every parameter vector of length `nparam - 1` and every resolvable configuration batch (explicit array, or the batch selected by P or S) whose occupied indices are in range, `compute_overlap` returns one value per configuration, in input order, equal to the product of numerator-matrix determinants restricted to the occupied rows divided by the product of denominator-matrix determinants restricted to those rows. -/
theorem claim_C2_overlap_formula (e : DetRatio) (x : List ℚ) (oa : OccsArg)
    (A : List (List ℕ)) (hres : e.resolveOccs oa = .ok A)
    (hx : x.length = e.nmatrices * e.nbasis * e.nocc)
    (hA : ∀ occs ∈ A, ∀ r ∈ occs, r < e.nbasis) :
    e.compute_overlap x oa =
      .ok (A.map (fun occs =>
        specOverlapValue ((reshapeTotal x e.nmatrices e.nbasis e.nocc).take e.numerator)
          ((reshapeTotal x e.nmatrices e.nbasis e.nocc).drop e.numerator) occs)) :=
  compute_overlap_eq_spec e x oa A hres hx hA

/-- Witness for `claim_C2` at a concrete input. -/
theorem claim_C2_witness :
    (∀ occs ∈ [[0], [1]], ∀ r ∈ occs, r < 2) ∧
    DetRatio.compute_overlap ⟨2, 1, 1, 1, 3, []⟩ ([1, 2, 3, 4] : List ℚ) (.arr [[0], [1]]) =
      .ok ([[0], [1]].map (fun occs =>
        specOverlapValue
          ((reshapeTotal ([1, 2, 3, 4] : List ℚ) 2 2 1).take 1)
          ((reshapeTotal ([1, 2, 3, 4] : List ℚ) 2 2 1).drop 1) occs)) :=
  ⟨by decide,
    claim_C2_overlap_formula ⟨2, 1, 1, 1, 3, []⟩ [1, 2, 3, 4] (.arr [[0], [1]]) [[0], [1]]
      rfl (by decide) (by decide)⟩

/-- C3: counterexample evaluation for the shape claim.  For the even-sum engine `numerator = 3`, `denominator = 1` (with `nbasis = nocc = 1`), `compute_overlap` does return one value per configuration, but `compute_overlap_deriv` raises an index-out-of-bounds error instead of returning an `M x (nparam - 1)` matrix: the second derivative loop runs over `numerator * mat_size` further indices, past the end of the row buffer. -/
theorem claim_C3_deriv_out_of_bounds :
    DetRatio.compute_overlap ⟨1, 1, 3, 1, 5, []⟩ ([1, 1, 1, 1] : List ℚ) (.arr [[0]]) =
      .ok [1] ∧
    DetRatio.compute_overlap_deriv ⟨1, 1, 3, 1, 5, []⟩ ([1, 1, 1, 1] : List ℚ) (.arr [[0]]) =
      .error "index out of bounds" := by
  constructor
  · norm_num [DetRatio.compute_overlap, DetRatio.resolveOccs, reshape3, reshapeTotal,
      DetRatio.nmatrices, mapE, detRows, selectIdx, getIdx, detL,
      List.range_succ, List.range_zero]
  · rfl

/-- C4: in both derivative loops, an entry `(r, c)` with `r` occupied and `nocc > 1` is the signed minor determinant times the row parity `(-1)^(position of r in the sorted occupied list)` and a column parity that is `(-1)^(position of c)` in the numerator loop and the opposite sign `-(-1)^(position of c)` in the denominator loop. -/
theorem claim_C4_cofactor_signs (e : DetRatio) (x_mats : List (List (List ℚ)))
    (occs : List ℕ) (dets : List ℚ) (nP dP : ℚ) (y_row : List ℚ) (i m n r c : ℕ)
    (hm : m = i / (e.nbasis * e.nocc)) (hn : n = i % (e.nbasis * e.nocc))
    (hr : r = n / e.nocc) (hc : c = n % e.nocc)
    (hsorted : occs.Sorted (· < ·)) (hrocc : r ∈ occs)
    (hlen : occs.length = e.nocc) (hnocc : 1 < e.nocc)
    (hi : i < y_row.length) (hmx : m < x_mats.length) (hmd : m < dets.length)
    (hrows : ∀ a ∈ occs, a < (x_mats.getD m []).length)
    (hcols : ∀ row ∈ x_mats.getD m [], e.nocc ≤ row.length) :
    e.numerStep x_mats occs dets nP dP y_row i =
      .ok (y_row.set i (cofactorSign (occs.indexOf r) c *
        (nP * detL (minorMat (x_mats.getD m []) occs e.nocc r c)) /
        (dP * dets.getD m 0))) ∧
    e.denomStep x_mats occs dets nP dP y_row i =
      .ok (y_row.set i (-cofactorSign (occs.indexOf r) c *
        (nP * detL (minorMat (x_mats.getD m []) occs e.nocc r c)) /
        (dP * dets.getD m 0))) :=
  ⟨numerStep_eq e x_mats occs dets nP dP y_row i m n r c hm hn hr hc hsorted hrocc
      hlen hnocc hi hmx hmd hrows hcols,
    denomStep_eq e x_mats occs dets nP dP y_row i m n r c hm hn hr hc hsorted hrocc
      hlen hnocc hi hmx hmd hrows hcols⟩

/-- Witness for `claim_C4` at a concrete input. -/
theorem claim_C4_witness :
    ([0, 2] : List ℕ).Sorted (· < ·) ∧
    (DetRatio.numerStep ⟨3, 2, 1, 1, 13, []⟩
        ([[[1, 2], [3, 4], [5, 6]], [[1, 0], [0, 1], [1, 1]]] : List (List (List ℚ)))
        [0, 2] [7, 9] 5 11 (List.replicate 12 0) 4 =
      .ok ((List.replicate 12 (0 : ℚ)).set 4 (cofactorSign (([0, 2] : List ℕ).indexOf 2) 0 *
        (5 * detL (minorMat ([[1, 2], [3, 4], [5, 6]] : List (List ℚ)) [0, 2] 2 2 0)) /
        (11 * ([7, 9] : List ℚ).getD 0 0))) ∧
    DetRatio.denomStep ⟨3, 2, 1, 1, 13, []⟩
        ([[[1, 2], [3, 4], [5, 6]], [[1, 0], [0, 1], [1, 1]]] : List (List (List ℚ)))
        [0, 2] [7, 9] 5 11 (List.replicate 12 0) 4 =
      .ok ((List.replicate 12 (0 : ℚ)).set 4 (-cofactorSign (([0, 2] : List ℕ).indexOf 2) 0 *
        (5 * detL (minorMat ([[1, 2], [3, 4], [5, 6]] : List (List ℚ)) [0, 2] 2 2 0)) /
        (11 * ([7, 9] : List ℚ).getD 0 0)))) :=
  ⟨by decide,
    claim_C4_cofactor_signs ⟨3, 2, 1, 1, 13, []⟩
      [[[1, 2], [3, 4], [5, 6]], [[1, 0], [0, 1], [1, 1]]]
      [0, 2] [7, 9] 5 11 (List.replicate 12 0) 4 0 4 2 0
      (by decide) (by decide) (by decide) (by decide) (by decide) (by decide)
      (by decide) (by decide) (by decide) (by decide) (by decide)
      (by decide) (by decide)⟩

/-- C5: counterexample evaluation for the `nocc == 1` claim.  For `numerator = 1`, `denominator = 3`, the claim says the derivative entry for every matrix's `(r0, 0)` entry is `1.0`, but the second loop only covers `numerator * mat_size` parameters, so the entries of denominator matrices 2 and 3 remain `0.0`. -/
theorem claim_C5_uncovered_matrices_stay_zero :
    DetRatio.compute_overlap_deriv ⟨1, 1, 1, 3, 5, []⟩ ([2, 3, 4, 5] : List ℚ) (.arr [[0]]) =
      .ok [[1, 1, 0, 0]] := by rfl

/-- C6: counterexample evaluation for the degenerate-case claim.  With `numerator = denominator = 1`, `nocc = 1`, numerator value 2 and denominator value 3 at the sole occupied row, the code returns `1.0` for both derivative entries, not the claimed `+1/3` and `-2/9`. -/
theorem claim_C6_degenerate_value_is_one :
    DetRatio.compute_overlap_deriv ⟨1, 1, 1, 1, 3, []⟩ ([2, 3] : List ℚ) (.arr [[0]]) =
      .ok [[1, 1]] ∧
    (1 : ℚ) ≠ 1 / 3 ∧ (1 : ℚ) ≠ -(2 / 9) := by
  refine ⟨by rfl, by norm_num, by norm_num⟩

/-- C7: for every engine, every parameter vector (even an ill-shaped one, showing the check precedes any computation) and every selector string other than P and S, both `compute_overlap` and `compute_overlap_deriv` fail with the invalid-selector error. -/
theorem claim_C7_invalid_selector (e : DetRatio) (x : List ℚ) (s : String)
    (hP : s ≠ "P") (hS : s ≠ "S") :
    e.compute_overlap x (.str s) = .error "invalid occs_array argument" ∧
    e.compute_overlap_deriv x (.str s) = .error "invalid occs_array argument" := by
  constructor
  · simp [DetRatio.compute_overlap, DetRatio.resolveOccs, hP, hS]
  · simp [DetRatio.compute_overlap_deriv, DetRatio.resolveOccs, hP, hS]

/-- Witness for `claim_C7` at a concrete input. -/
theorem claim_C7_witness :
    ("Q" : String) ≠ "P" ∧
    DetRatio.compute_overlap ⟨1, 1, 1, 1, 3, []⟩ ([] : List ℚ) (.str "Q") =
      .error "invalid occs_array argument" ∧
    DetRatio.compute_overlap_deriv ⟨1, 1, 1, 1, 3, []⟩ ([] : List ℚ) (.str "Q") =
      .error "invalid occs_array argument" :=
  ⟨by decide, (claim_C7_invalid_selector ⟨1, 1, 1, 1, 3, []⟩ [] "Q" (by decide) (by decide)).1,
    (claim_C7_invalid_selector ⟨1, 1, 1, 1, 3, []⟩ [] "Q" (by decide) (by decide)).2⟩

/-- C8: construction fails with the invalid-argument error exactly when `numerator + denominator` is odd; with an even sum the odd-count check passes and an engine is produced. -/
theorem claim_C8_odd_matrix_count (nbasis nocc numerator denominator : ℕ)
    (nproj : Option ℕ) (sspace : List (List ℕ)) :
    ((numerator + denominator) % 2 = 1 →
      DetRatio.init nbasis nocc numerator denominator nproj sspace =
        .error "Number of matrices cannot be odd") ∧
    ((numerator + denominator) % 2 = 0 →
      ∃ e, DetRatio.init nbasis nocc numerator denominator nproj sspace = .ok e ∧
        e.numerator = numerator ∧ e.denominator = denominator) := by
  constructor
  · intro h
    simp [DetRatio.init, h]
  · intro h
    refine ⟨⟨nbasis, nocc, numerator, denominator,
      nproj.getD ((numerator + denominator) * nbasis * nocc + 1), sspace⟩, ?_, rfl, rfl⟩
    simp [DetRatio.init, h]

/-- Witness for `claim_C8` at a concrete input. -/
theorem claim_C8_witness :
    (2 + 1) % 2 = 1 ∧
    DetRatio.init 4 2 2 1 .none [] = .error "Number of matrices cannot be odd" ∧
    (∃ e, DetRatio.init 4 2 1 1 .none [] = .ok e ∧
      e.numerator = 1 ∧ e.denominator = 1) :=
  ⟨by decide, (claim_C8_odd_matrix_count 4 2 2 1 .none []).1 (by decide),
    (claim_C8_odd_matrix_count 4 2 1 1 .none []).2 (by decide)⟩

/-- C9 counterexample: for the engine with `nparam = 3`, `compute_overlap` on a vector of length `nparam` fails at the reshape, while on the length-`(nparam - 1)` prefix it succeeds -- the two calls do not return identical results as the claim states. -/
theorem claim_C9_counterexample :
    DetRatio.compute_overlap ⟨1, 1, 1, 1, 3, []⟩ ([1, 2, 3] : List ℚ) (.arr [[0]]) =
      .error "cannot reshape" ∧
    DetRatio.compute_overlap ⟨1, 1, 1, 1, 3, []⟩ ([1, 2] : List ℚ) (.arr [[0]]) =
      .ok [1 / 2] := by
  constructor
  · rfl
  · norm_num [DetRatio.compute_overlap, DetRatio.resolveOccs, reshape3, reshapeTotal,
      DetRatio.nmatrices, mapE, detRows, selectIdx, getIdx, detL,
      List.range_succ, List.range_zero]

/-- C9 amended: only parameter vectors of length `nparam - 1` are accepted; a vector of length `nparam` makes both `compute_overlap` and `compute_overlap_deriv` fail at the reshape, and a vector of length `nparam - 1` with valid configurations makes `compute_overlap` succeed with one value per configuration. -/
theorem claim_C9_amended (e : DetRatio) (x : List ℚ) (a : List (List ℕ))
    (ha : ∀ occs ∈ a, ∀ r ∈ occs, r < e.nbasis) :
    (x.length = e.nparam →
      e.compute_overlap x (.arr a) = .error "cannot reshape" ∧
      e.compute_overlap_deriv x (.arr a) = .error "cannot reshape") ∧
    (x.length = e.nparam - 1 →
      ∃ y, e.compute_overlap x (.arr a) = .ok y ∧ y.length = a.length) := by
  constructor
  · intro hx
    have hne : ¬(x.length = e.nmatrices * e.nbasis * e.nocc) := by
      rw [hx, DetRatio.nparam]
      omega
    have hresh : reshape3 x e.nmatrices e.nbasis e.nocc = .error "cannot reshape" := by
      simp [reshape3, hne]
    constructor
    · simp [DetRatio.compute_overlap, DetRatio.resolveOccs, hresh]
    · simp [DetRatio.compute_overlap_deriv, DetRatio.resolveOccs, hresh]
  · intro hx
    have hx' : x.length = e.nmatrices * e.nbasis * e.nocc := by
      rw [hx, DetRatio.nparam]
      omega
    exact ⟨_, compute_overlap_eq_spec e x (.arr a) a rfl hx' ha, by simp⟩

/-- Witness for `claim_C9` at a concrete input. -/
theorem claim_C9_witness :
    (∀ occs ∈ [[0]], ∀ r ∈ occs, r < 1) ∧
    (([1, 2, 3] : List ℚ).length = (3 : ℕ) →
      DetRatio.compute_overlap ⟨1, 1, 1, 1, 3, []⟩ ([1, 2, 3] : List ℚ) (.arr [[0]]) =
        .error "cannot reshape" ∧
      DetRatio.compute_overlap_deriv ⟨1, 1, 1, 1, 3, []⟩ ([1, 2, 3] : List ℚ) (.arr [[0]]) =
        .error "cannot reshape") ∧
    (∃ y, DetRatio.compute_overlap ⟨1, 1, 1, 1, 3, []⟩ ([1, 2] : List ℚ) (.arr [[0]]) =
      .ok y ∧ y.length = 1) :=
  ⟨by decide,
    fun hx => (claim_C9_amended ⟨1, 1, 1, 1, 3, []⟩ [1, 2, 3] [[0]] (by decide)).1 hx,
    (claim_C9_amended ⟨1, 1, 1, 1, 3, []⟩ [1, 2] [[0]] (by decide)).2 (by decide)⟩

/-- C10: for every engine with `numerator = 0`, every parameter vector of matching length and every valid configuration batch, `compute_overlap_deriv` returns the all-zero `M x (nparam - 1)` matrix: both derivative loops are empty. -/
theorem claim_C10_zero_numerator (e : DetRatio) (x : List ℚ) (a : List (List ℕ))
    (hnum : e.numerator = 0)
    (hx : x.length = e.nmatrices * e.nbasis * e.nocc)
    (ha : ∀ occs ∈ a, ∀ r ∈ occs, r < e.nbasis) :
    e.compute_overlap_deriv x (.arr a) =
      .ok (a.map (fun _ => List.replicate (e.nparam - 1) (0 : ℚ))) := by
  have hresh : reshape3 x e.nmatrices e.nbasis e.nocc =
      .ok (reshapeTotal x e.nmatrices e.nbasis e.nocc) := by
    simp [reshape3, hx]
  simp only [DetRatio.compute_overlap_deriv, DetRatio.resolveOccs, hresh]
  refine mapE_ok _ _ _ (fun occs hocc => ?_)
  have hdets : mapE (fun mat => detRows mat occs)
      (reshapeTotal x e.nmatrices e.nbasis e.nocc) =
      .ok ((reshapeTotal x e.nmatrices e.nbasis e.nocc).map
        (fun mat => detL (occs.map (fun r => mat.getD r [])))) :=
    mapE_ok _ _ _ (fun mat hmat => detRows_ok mat occs (fun r hr => by
      rw [reshapeTotal_mat_length hmat]
      exact ha occs hocc r hr))
  simp only [DetRatio.derivRow, hdets, hnum, Nat.zero_mul, List.range_zero, foldE,
    if_pos rfl, List.range']

/-- Witness for `claim_C10` at a concrete input. -/
theorem claim_C10_witness :
    (∀ occs ∈ [[0]], ∀ r ∈ occs, r < 1) ∧
    DetRatio.compute_overlap_deriv ⟨1, 1, 0, 2, 3, []⟩ ([5, 7] : List ℚ) (.arr [[0]]) =
      .ok ([[0]].map (fun _ => List.replicate 2 (0 : ℚ))) :=
  ⟨by decide,
    claim_C10_zero_numerator ⟨1, 1, 0, 2, 3, []⟩ [5, 7] [[0]] rfl (by decide) (by decide)⟩

end Claims

end PyCI
